import Mathlib

/-!
Verification of the text-to-record extraction core of `ipoji_scrapper.py`.

The Python source is shallowly embedded: each extraction function becomes a
Lean function over `String` / `List Char`.  Regular-expression searches from
the source are translated either as dedicated left-to-right scanners (for the
patterns where maximal-munch matching coincides with Python's backtracking
search, which is argued case by case in the comments) or through a small
fueled backtracking engine (for the five company-name patterns, which use
lazy quantifiers and alternation tails).  Character classes `\d`, `\s`,
`[A-Za-z]` are modelled over ASCII, which covers every input the claims
exercise.  Machine floats in the source are modelled by exact rationals;
all concrete values involved are exactly representable.
-/

namespace IpoScraper

/-! ### Character classes (ASCII fragment of Python's `\d`, `\s`, `[A-Za-z]`) -/

def isDigitA (c : Char) : Bool := 48 ≤ c.toNat && c.toNat ≤ 57

def isUpperA (c : Char) : Bool := 65 ≤ c.toNat && c.toNat ≤ 90

def isLowerA (c : Char) : Bool := 97 ≤ c.toNat && c.toNat ≤ 122

def isAlphaA (c : Char) : Bool := isUpperA c || isLowerA c

/-- Python whitespace for `str.strip` / `\s`: space, tab, newline, carriage
return, vertical tab, form feed. -/
def isWsA (c : Char) : Bool :=
  c = ' ' || c = '\t' || c = '\n' || c = '\r' || c.toNat = 11 || c.toNat = 12

/-- ASCII lowercasing, used for the `re.IGNORECASE` comparisons. -/
def lowerC (c : Char) : Char :=
  if isUpperA c then Char.ofNat (c.toNat + 32) else c

/-! ### Small string utilities -/

/-- Python `str.strip()` on a character list. -/
def pyStrip (cs : List Char) : List Char :=
  ((cs.dropWhile isWsA).reverse.dropWhile isWsA).reverse

/-- Python `str.strip()` on a `String`. -/
def pyStripS (s : String) : String := String.mk (pyStrip s.data)

/-- Drop a literal from the front of `s`; `none` if it is not there. -/
def stripPre : List Char → List Char → Option (List Char)
  | [], s => some s
  | _ :: _, [] => none
  | p :: ps, c :: cs => if p = c then stripPre ps cs else none

/-- Case-insensitive variant of `stripPre` (for `re.IGNORECASE` literals). -/
def stripPreCI : List Char → List Char → Option (List Char)
  | [], s => some s
  | _ :: _, [] => none
  | p :: ps, c :: cs => if lowerC p = lowerC c then stripPreCI ps cs else none

/-- Longest run of characters satisfying `p`: returns `(run, rest)`. -/
def takeRun (p : Char → Bool) : List Char → List Char × List Char
  | [] => ([], [])
  | c :: cs =>
      if p c then
        let (r, rest) := takeRun p cs
        (c :: r, rest)
      else ([], c :: cs)

/-- Numeric value of a digit list (most significant first). -/
def digitsVal (cs : List Char) : Nat :=
  cs.foldl (fun acc c => 10 * acc + (c.toNat - 48)) 0

/-- Python `int()` as used by the source: the argument there is always free of
signs and underscores, so it succeeds exactly on a whitespace-trimmed
non-empty digit string. -/
def pyInt (cs : List Char) : Option Nat :=
  let t := pyStrip cs
  if t ≠ [] && t.all isDigitA then some (digitsVal t) else none

/-- Python `float()` on a `\d+\.?\d*`-shaped capture: integer digits plus an
optional fractional digit list. -/
def decVal (ip fp : List Char) : ℚ :=
  (digitsVal ip : ℚ) + (digitsVal fp : ℚ) / (10 : ℚ) ^ fp.length

/-! ### `extract_price` (source lines 26-52)

`re.sub(r'[^\d\-\s]', '', price_text.strip())`, then either a dash-split pair
of `int()`s or a single `int()`; any failure yields `(None, None)`. -/

/-- The cleaned text: strip, then drop every character that is not a digit,
a dash or whitespace. -/
def cleanPrice (s : String) : List Char :=
  (pyStrip s.data).filter (fun c => isDigitA c || c = '-' || isWsA c)

def extract_price (s : String) : Option Nat × Option Nat :=
  let clean := cleanPrice s
  if '-' ∈ clean then
    match clean.splitOn '-' with
    | [p1, p2] =>
        match pyInt p1, pyInt p2 with
        | some a, some b => (some a, some b)
        | _, _ => (none, none)
    | _ => (none, none)
  else
    match pyInt clean with
    | some v => (some v, some v)
    | none => (none, none)

/-! ### Dates: `extract_dates` (source lines 114-132)

`re.search(r'([A-Za-z]+ \d+, \d+)\s*-\s*([A-Za-z]+ \d+, \d+)', date_text)`
followed by `datetime.strptime(side, '%b %d, %Y').date()` on each side. -/

structure PDate where
  year : Nat
  month : Nat
  day : Nat
deriving DecidableEq, Repr

/-- Month number of a lowercased `%b` abbreviation. -/
def monthNum (cs : List Char) : Option Nat :=
  if cs = ['j', 'a', 'n'] then some 1
  else if cs = ['f', 'e', 'b'] then some 2
  else if cs = ['m', 'a', 'r'] then some 3
  else if cs = ['a', 'p', 'r'] then some 4
  else if cs = ['m', 'a', 'y'] then some 5
  else if cs = ['j', 'u', 'n'] then some 6
  else if cs = ['j', 'u', 'l'] then some 7
  else if cs = ['a', 'u', 'g'] then some 8
  else if cs = ['s', 'e', 'p'] then some 9
  else if cs = ['o', 'c', 't'] then some 10
  else if cs = ['n', 'o', 'v'] then some 11
  else if cs = ['d', 'e', 'c'] then some 12
  else none

def isLeap (y : Nat) : Bool := y % 4 = 0 && (y % 100 ≠ 0 || y % 400 = 0)

def daysInMonth (y m : Nat) : Nat :=
  if m = 2 then (if isLeap y then 29 else 28)
  else if m = 4 || m = 6 || m = 9 || m = 11 then 30
  else 31

/-- Model of `datetime.strptime(s, '%b %d, %Y').date()`.  `%b` is a case-insensitive
month abbreviation, `%d` one or two digits valued 1-31, the format's spaces
match runs of whitespace, `%Y` is exactly four digits, the whole string must
be consumed, and `datetime.date` validates the day against the month length
(raising `ValueError`, modelled as `none`). -/
def strptimeBDY (s : String) : Option PDate :=
  let (mon, r1) := takeRun isAlphaA s.data
  let (w1, r2) := takeRun isWsA r1
  let (day, r3) := takeRun isDigitA r2
  match r3 with
  | ',' :: r4 =>
      let (w2, r5) := takeRun isWsA r4
      let (yr, r6) := takeRun isDigitA r5
      match monthNum (mon.map lowerC) with
      | some m =>
          let d := digitsVal day
          let y := digitsVal yr
          if w1 ≠ [] && (day.length = 1 || day.length = 2) && 1 ≤ d && d ≤ 31 &&
              w2 ≠ [] && yr.length = 4 && 1 ≤ y && r6 = [] &&
              d ≤ daysInMonth y m then
            some ⟨y, m, d⟩
          else none
      | none => none
  | _ => none

/-- One `[A-Za-z]+ \d+, \d+` unit; returns `(matched, rest)`. -/
def matchMDY (s : List Char) : Option (List Char × List Char) :=
  let (letters, r1) := takeRun isAlphaA s
  if letters = [] then none else
  match r1 with
  | ' ' :: r2 =>
      let (d1, r3) := takeRun isDigitA r2
      if d1 = [] then none else
      match r3 with
      | ',' :: ' ' :: r4 =>
          let (d2, r5) := takeRun isDigitA r4
          if d2 = [] then none else
          some (letters ++ ' ' :: d1 ++ ',' :: ' ' :: d2, r5)
      | _ => none
  | _ => none

/-- Attempt of `([A-Za-z]+ \d+, \d+)\s*-\s*([A-Za-z]+ \d+, \d+)` at the start
of `s` (maximal munch coincides with the regex here: every greedy run is
followed by a delimiter outside its class). -/
def datePairAt (s : List Char) : Option (String × String) :=
  match matchMDY s with
  | some (m1, r1) =>
      let (_, r2) := takeRun isWsA r1
      match r2 with
      | '-' :: r3 =>
          let (_, r4) := takeRun isWsA r3
          match matchMDY r4 with
          | some (m2, _) => some (String.mk m1, String.mk m2)
          | none => none
      | _ => none
  | none => none

/-- The `re.search` scan for the date-pair pattern: leftmost position wins. -/
def datePairSearch : Nat → List Char → Option (String × String)
  | 0, _ => none
  | fuel + 1, s =>
      match datePairAt s with
      | some x => some x
      | none =>
          match s with
          | [] => none
          | _ :: rest => datePairSearch fuel rest

def extract_dates (s : String) : Option PDate × Option PDate :=
  match datePairSearch (s.length + 1) s.data with
  | none => (none, none)
  | some (g1, g2) =>
      match strptimeBDY g1, strptimeBDY g2 with
      | some d1, some d2 => (some d1, some d2)
      | _, _ => (none, none)

/-! ### `extract_premium` (source lines 84-112)

`'N/A' in premium_text` short-circuit, then
`re.search(r'([\d\-]+)\s*\((\d+\.?\d*)%\)', premium_text)`; a dash range is
averaged (float division), a single value converted, `ValueError → (None,
None)`. -/

/-- Substring test (Python `in` on strings), case-sensitive. -/
def containsSub (needle : List Char) : List Char → Bool
  | [] => (stripPre needle []).isSome
  | s@(_ :: rest) => (stripPre needle s).isSome || containsSub needle rest

/-- Attempt of `([\d\-]+)\s*\((\d+\.?\d*)%\)` at the start of `s`: returns the
range capture and the integer/fraction digit lists of the percentage.
Shrinking the greedy `[\d\-]+` run leaves a digit or dash where `\s*\(` must
match, so maximal munch agrees with the regex. -/
def premPairAt (s : List Char) : Option (List Char × List Char × List Char) :=
  let (rng, r1) := takeRun (fun c => isDigitA c || c = '-') s
  if rng = [] then none else
  let (_, r2) := takeRun isWsA r1
  match r2 with
  | '(' :: r3 =>
      let (ip, r4) := takeRun isDigitA r3
      if ip = [] then none else
      match r4 with
      | '.' :: r5 =>
          let (fp, r6) := takeRun isDigitA r5
          match r6 with
          | '%' :: ')' :: _ => some (rng, ip, fp)
          | _ => none
      | '%' :: ')' :: _ => some (rng, ip, [])
      | _ => none
  | _ => none

def premPairSearch : Nat → List Char → Option (List Char × List Char × List Char)
  | 0, _ => none
  | fuel + 1, s =>
      match premPairAt s with
      | some x => some x
      | none =>
          match s with
          | [] => none
          | _ :: rest => premPairSearch fuel rest

/-- The `int()` parsing of the captured range: a dash range gives the two
bounds, a single value `v` gives `(v, v)` (its average `(v+v)/2 = v` is the
value Python returns for the single case); `ValueError` gives `none`. -/
def premRange (rng : List Char) : Option (Nat × Nat) :=
  if '-' ∈ rng then
    match rng.splitOn '-' with
    | [p1, p2] =>
        match pyInt p1, pyInt p2 with
        | some a, some b => some (a, b)
        | _, _ => none
    | _ => none
  else
    match pyInt rng with
    | some v => some (v, v)
    | none => none

/-- All of `extract_premium` except the final float arithmetic: the premium
bounds and the percentage digit lists of a successful extraction. -/
def extract_premium_core (s : String) : Option (Nat × Nat × List Char × List Char) :=
  if s = "" || containsSub ['N', '/', 'A'] s.data then none
  else
    match premPairSearch (s.length + 1) s.data with
    | none => none
    | some (rng, ip, fp) =>
        match premRange rng with
        | some (a, b) => some (a, b, ip, fp)
        | none => none

def extract_premium (s : String) : Option ℚ × Option ℚ :=
  match extract_premium_core s with
  | some (a, b, ip, fp) =>
      (some (((a : ℚ) + (b : ℚ)) / 2), some (decVal ip fp))
  | none => (none, none)

/-! ### Field scanners of `parse_single_ipo_block` (source lines 273-332)

Each models one `re.search` over the block text; all are left-to-right scans
that try an attempt at every position, which matches Python's search because
each attempt is deterministic at its start position (argued per pattern). -/

/-- Attempt of `Offer Price(\d+(?:-\d+)?)` at the start of `s`: the literal,
then digits, then optionally a dash followed by digits (taken only when a
digit follows the dash, which is how the greedy `(?:-\d+)?` backtracks). -/
def priceAt (s : List Char) : Option (List Char) :=
  match stripPre ("Offer Price").data s with
  | none => none
  | some s1 =>
      let (d1, r1) := takeRun isDigitA s1
      if d1 = [] then none else
      match r1 with
      | '-' :: r2 =>
          let (d2, _) := takeRun isDigitA r2
          if d2 = [] then some d1 else some (d1 ++ '-' :: d2)
      | _ => some d1

def priceSearch : Nat → List Char → Option (List Char)
  | 0, _ => none
  | fuel + 1, s =>
      match priceAt s with
      | some x => some x
      | none =>
          match s with
          | [] => none
          | _ :: rest => priceSearch fuel rest

/-- Lines 282-288: the price capture fed through `extract_price`, assigned to
the record only when `min_price` is truthy (`if min_price:`). -/
def blockPrice (t : String) : Option (Nat × Nat) :=
  match priceSearch (t.length + 1) t.data with
  | none => none
  | some g =>
      match extract_price (String.mk g) with
      | (some mn, some mx) => if mn ≠ 0 then some (mn, mx) else none
      | _ => none

/-- Attempt of `Lot Size(\d+)` at the start of `s`. -/
def lotAt (s : List Char) : Option (List Char) :=
  match stripPre ("Lot Size").data s with
  | none => none
  | some s1 =>
      let (d1, _) := takeRun isDigitA s1
      if d1 = [] then none else some d1

def lotSearch : Nat → List Char → Option (List Char)
  | 0, _ => none
  | fuel + 1, s =>
      match lotAt s with
      | some x => some x
      | none =>
          match s with
          | [] => none
          | _ :: rest => lotSearch fuel rest

/-- Lines 291-296: `int()` on a `\d+` capture never raises. -/
def blockLot (t : String) : Option Nat :=
  (lotSearch (t.length + 1) t.data).map digitsVal

/-- Attempt of the bare `(\d+\.?\d*)\s*times` pattern (`re.IGNORECASE`) at the
start of `s`: returns the integer/fraction digit lists of the capture. -/
def subBareAt (s : List Char) : Option (List Char × List Char) :=
  let (ip, r1) := takeRun isDigitA s
  if ip = [] then none else
  let (fp, r2) :=
    match r1 with
    | '.' :: r1' => takeRun isDigitA r1'
    | _ => ([], r1)
  let (_, r3) := takeRun isWsA r2
  match stripPreCI ("times").data r3 with
  | some _ => some (ip, fp)
  | none => none

def subBareSearch : Nat → List Char → Option (List Char × List Char)
  | 0, _ => none
  | fuel + 1, s =>
      match subBareAt s with
      | some x => some x
      | none =>
          match s with
          | [] => none
          | _ :: rest => subBareSearch fuel rest

/-- Attempt of `No of Apps:[^|]*\|\s*(\d+\.?\d*)\s*times` (`re.IGNORECASE`) at
the start of `s`: the greedy `[^|]*` can only stop at the first pipe. -/
def subAppsAt (s : List Char) : Option (List Char × List Char) :=
  match stripPreCI ("No of Apps:").data s with
  | none => none
  | some s1 =>
      let (_, r1) := takeRun (fun c => c ≠ '|') s1
      match r1 with
      | '|' :: r2 =>
          let (_, r3) := takeRun isWsA r2
          let (ip, r4) := takeRun isDigitA r3
          if ip = [] then none else
          let (fp, r5) :=
            match r4 with
            | '.' :: r4' => takeRun isDigitA r4'
            | _ => ([], r4)
          let (_, r6) := takeRun isWsA r5
          match stripPreCI ("times").data r6 with
          | some _ => some (ip, fp)
          | none => none
      | _ => none

def subAppsSearch : Nat → List Char → Option (List Char × List Char)
  | 0, _ => none
  | fuel + 1, s =>
      match subAppsAt s with
      | some x => some x
      | none =>
          match s with
          | [] => none
          | _ :: rest => subAppsSearch fuel rest

/-- Lines 298-312: the ordered pattern list, bare pattern first, first success
wins; `float()` on a `\d+\.?\d*` capture never raises. -/
def blockSubCore (t : String) : Option (List Char × List Char) :=
  match subBareSearch (t.length + 1) t.data with
  | some x => some x
  | none => subAppsSearch (t.length + 1) t.data

def blockSub (t : String) : Option ℚ :=
  (blockSubCore t).map (fun x => decVal x.1 x.2)

/-- Attempt of `Exp\. Premium(\d+(?:-\d+)?)[^(]*\((\d+\.?\d*)%\)` at the start
of `s`.  If anything after the literal fails the whole attempt fails (the
greedy pieces cannot recover: `[^(]*` must stop at the first parenthesis). -/
def blockPremAt (s : List Char) : Option (List Char × Option (List Char) × List Char × List Char) :=
  match stripPre ("Exp. Premium").data s with
  | none => none
  | some s1 =>
      let (d1, r1) := takeRun isDigitA s1
      if d1 = [] then none else
      let (d2, r2) :=
        match r1 with
        | '-' :: r1' =>
            let (d2', r2') := takeRun isDigitA r1'
            if d2' = [] then (none, r1) else (some d2', r2')
        | _ => (none, r1)
      let (_, r3) := takeRun (fun c => c ≠ '(') r2
      match r3 with
      | '(' :: r4 =>
          let (ip, r5) := takeRun isDigitA r4
          if ip = [] then none else
          let (fp, r6) :=
            match r5 with
            | '.' :: r5' => takeRun isDigitA r5'
            | _ => ([], r5)
          match r6 with
          | '%' :: ')' :: _ => some (d1, d2, ip, fp)
          | _ => none
      | _ => none

def blockPremSearch : Nat → List Char → Option (List Char × Option (List Char) × List Char × List Char)
  | 0, _ => none
  | fuel + 1, s =>
      match blockPremAt s with
      | some x => some x
      | none =>
          match s with
          | [] => none
          | _ :: rest => blockPremSearch fuel rest

/-- Lines 314-332 without the float arithmetic: premium bounds (a dash range
gives its two bounds, a single value `v` gives `(v, v)`) and percentage digit
lists.  The `int()`/`float()` calls are on digit-only captures, so the
`except ValueError` branch is unreachable. -/
def blockPremiumCore (t : String) : Option (Nat × Nat × List Char × List Char) :=
  match blockPremSearch (t.length + 1) t.data with
  | none => none
  | some (d1, d2, ip, fp) =>
      match d2 with
      | some d2' => some (digitsVal d1, digitsVal d2', ip, fp)
      | none => some (digitsVal d1, digitsVal d1, ip, fp)

def blockPremium (t : String) : Option (ℚ × ℚ) :=
  (blockPremiumCore t).map
    (fun x => (((x.1 : ℚ) + (x.2.1 : ℚ)) / 2, decVal x.2.2.1 x.2.2.2))

/-- Strict `[A-Za-z]+ \d+, \d+ - [A-Za-z]+ \d+, \d+` (single literal spaces),
the date-range unit of the segmenter and of the line-274 search. -/
def matchDateRangeStrict (s : List Char) : Option (List Char × List Char) :=
  match matchMDY s with
  | some (m1, r1) =>
      match stripPre [' ', '-', ' '] r1 with
      | some r2 =>
          match matchMDY r2 with
          | some (m2, r3) => some (m1 ++ ' ' :: '-' :: ' ' :: m2, r3)
          | none => none
      | none => none
  | none => none

/-- Attempt of `Offer Date:\s*([A-Za-z]+ \d+, \d+ - [A-Za-z]+ \d+, \d+)`
(case-sensitive, line 274) at the start of `s`. -/
def blockDateAt (s : List Char) : Option (List Char) :=
  match stripPre ("Offer Date:").data s with
  | none => none
  | some s1 =>
      let (_, r1) := takeRun isWsA s1
      match matchDateRangeStrict r1 with
      | some (g, _) => some g
      | none => none

def blockDateSearch : Nat → List Char → Option (List Char)
  | 0, _ => none
  | fuel + 1, s =>
      match blockDateAt s with
      | some x => some x
      | none =>
          match s with
          | [] => none
          | _ :: rest => blockDateSearch fuel rest

/-- Lines 273-279: the captured date text fed through `extract_dates`; both
record fields are assigned from its result in all cases. -/
def blockDates (t : String) : Option PDate × Option PDate :=
  match blockDateSearch (t.length + 1) t.data with
  | none => (none, none)
  | some g => extract_dates (String.mk g)

/-! ### A small backtracking regex engine

The five company-name patterns (source lines 243-258) use lazy quantifiers
and alternation tails, so they are run on a faithful backtracking matcher
rather than hand-coded scanners.  Alternatives are tried left first, greedy
stars longest first, lazy stars shortest first, exactly as Python's engine
does; `eol` is the un-anchored `$` (end of text, or just before a final
newline).  One capture group per pattern suffices.  The fuel bounds the
recursion depth; `reFuel` below is generous enough that a fuel-out (`none`)
never occurs on inputs of the given length (each star iteration consumes at
least one character and costs a bounded number of nested calls). -/

inductive RE where
  | eps : RE
  | cls (p : Char → Bool) : RE
  | lit (cs : List Char) : RE
  | cat (a b : RE) : RE
  | alt (a b : RE) : RE
  | starG (a : RE) : RE
  | starL (a : RE) : RE
  | grp (a : RE) : RE
  | eol : RE

/-- Backtracking matcher in continuation-passing style.  `s` is the remaining
input, `cap` the innermost capture seen so far, `k` the continuation; the
result is the capture of the first overall success in preference order. -/
def reM (fuel : Nat) (r : RE) (s : List Char) (cap : Option (List Char))
    (k : List Char → Option (List Char) → Option (List Char)) :
    Option (List Char) :=
  match fuel with
  | 0 => none
  | fuel + 1 =>
      match r with
      | .eps => k s cap
      | .cls p =>
          match s with
          | [] => none
          | c :: rest => if p c then k rest cap else none
      | .lit cs =>
          match stripPre cs s with
          | some rest => k rest cap
          | none => none
      | .cat a b => reM fuel a s cap (fun s1 c1 => reM fuel b s1 c1 k)
      | .alt a b =>
          match reM fuel a s cap k with
          | some x => some x
          | none => reM fuel b s cap k
      | .starG a =>
          match reM fuel a s cap (fun s1 c1 =>
              if s1.length = s.length then none
              else reM fuel (.starG a) s1 c1 k) with
          | some x => some x
          | none => k s cap
      | .starL a =>
          match k s cap with
          | some x => some x
          | none =>
              reM fuel a s cap (fun s1 c1 =>
                if s1.length = s.length then none
                else reM fuel (.starL a) s1 c1 k)
      | .grp a =>
          reM fuel a s cap (fun s1 _ =>
            k s1 (some (s.take (s.length - s1.length))))
      | .eol => if s = [] ∨ s = ['\n'] then k s cap else none

def reSize : RE → Nat
  | .eps => 1
  | .cls _ => 1
  | .lit _ => 1
  | .cat a b => 1 + reSize a + reSize b
  | .alt a b => 1 + reSize a + reSize b
  | .starG a => 1 + reSize a
  | .starL a => 1 + reSize a
  | .grp a => 1 + reSize a
  | .eol => 1

def reFuel (r : RE) (s : List Char) : Nat :=
  (s.length + 2) * (reSize r + 2)

/-- Match attempt at one position: the group capture of the first success. -/
def reMatchAt (r : RE) (s : List Char) : Option (List Char) :=
  reM (reFuel r s) r s none (fun _ cap => some (cap.getD []))

/-- Model of `re.search`: leftmost matching position wins. -/
def reSearch (r : RE) : Nat → List Char → Option (List Char)
  | 0, _ => none
  | fuel + 1, s =>
      match reMatchAt r s with
      | some x => some x
      | none =>
          match s with
          | [] => none
          | _ :: rest => reSearch r fuel rest

/-! ### Company-name extraction (source lines 224-271) -/

/-- Class `[A-Za-z\s&.-]`. -/
def nameCls (c : Char) : Bool := isAlphaA c || isWsA c || c = '&' || c = '.' || c = '-'

/-- Class `[A-Za-z\s]`. -/
def alphaWsCls (c : Char) : Bool := isAlphaA c || isWsA c

/-- Class `.` without `re.DOTALL`: any character but a newline. -/
def dotCls (c : Char) : Bool := c ≠ '\n'

/-- Class `[A-Z&]`. -/
def upAmpCls (c : Char) : Bool := isUpperA c || c = '&'

def reStr (s : String) : RE := .lit s.data

/-- Quantifier `a+` (greedy). -/
def plusG (a : RE) : RE := .cat a (.starG a)

/-- Quantifier `a{2,}?` (lazy, at least two). -/
def rep2L (a : RE) : RE := .cat a (.cat a (.starL a))

/-- Quantifier `a{3,}?` (lazy, at least three). -/
def rep3L (a : RE) : RE := .cat a (.cat a (.cat a (.starL a)))

/-- Quantifier `a?` (greedy). -/
def optG (a : RE) : RE := .alt a .eps

/-- Tail `(?:\s*$|\s*[A-Z][a-z])` of name patterns 1-3. -/
def nameTail : RE :=
  .alt (.cat (.starG (.cls isWsA)) .eol)
    (.cat (.starG (.cls isWsA)) (.cat (.cls isUpperA) (.cls isLowerA)))

/-- Alternation `(?:REIT|Trust|Limited|...|Cinemas)`, in source order. -/
def suffixAlt : RE :=
  [reStr ("Trust"), reStr ("Limited"), reStr ("Ltd"), reStr ("Inc"),
   reStr ("Corp"), reStr ("Company"), reStr ("Group"), reStr ("Holdings"),
   reStr ("Ventures"), reStr ("Industries"), reStr ("Systems"),
   reStr ("Solutions"), reStr ("Technologies"), reStr ("Healthcare"),
   reStr ("Plastics"), reStr ("Cement"), reStr ("Lab"), reStr ("Cast"),
   reStr ("Cinemas")].foldl RE.alt (reStr ("REIT"))

/-- Pattern 1: `Check Allotment\s*([A-Za-z][A-Za-z\s&.-]{2,}?)(?:\s*$|\s*[A-Z][a-z])`. -/
def namePat1 : RE :=
  .cat (reStr ("Check Allotment"))
    (.cat (.starG (.cls isWsA))
      (.cat (.grp (.cat (.cls isAlphaA) (rep2L (.cls nameCls)))) nameTail))

/-- Pattern 2: the same with a `View Check Allotment` anchor. -/
def namePat2 : RE :=
  .cat (reStr ("View Check Allotment"))
    (.cat (.starG (.cls isWsA))
      (.cat (.grp (.cat (.cls isAlphaA) (rep2L (.cls nameCls)))) nameTail))

/-- Pattern 3: `Allotment[A-Za-z\s]*?\s+([A-Z][A-Za-z\s&.-]{3,}?)(?:\s*$|\s*[A-Z][a-z])`. -/
def namePat3 : RE :=
  .cat (reStr ("Allotment"))
    (.cat (.starL (.cls alphaWsCls))
      (.cat (plusG (.cls isWsA))
        (.cat (.grp (.cat (.cls isUpperA) (rep3L (.cls nameCls)))) nameTail)))

/-- Pattern 4: action markers, then a lazy gap, then a capitalized candidate
with an optional known suffix word, anchored at the end. -/
def namePat4 : RE :=
  .cat (.alt (reStr ("View Apply")) (.alt (reStr ("Check Allotment")) (reStr ("Allotment Awaited"))))
    (.cat (.starL (.cls dotCls))
      (.cat (.grp (.cat (.cls isUpperA) (.cat (plusG (.cls nameCls)) (optG suffixAlt))))
        (.cat (.starG (.cls isWsA)) .eol)))

/-- Pattern 5: a bare capitalized word sequence ending in a known suffix word,
anchored at the end. -/
def namePat5 : RE :=
  .cat (.grp (.cat (.cls isUpperA)
      (.cat (plusG (.cls isAlphaA))
        (.cat (.starG (.cat (plusG (.cls isWsA)) (.cat (.cls upAmpCls) (plusG (.cls isAlphaA)))))
          (.cat (plusG (.cls isWsA)) suffixAlt)))))
    (.cat (.starG (.cls isWsA)) .eol)

def namePatterns : List RE := [namePat1, namePat2, namePat3, namePat4, namePat5]

/-- Model of `re.sub(r'\s+', ' ', name)`: collapse every whitespace run to one space.
The flag records whether the previous character was whitespace. -/
def squeezeWsAux : Bool → List Char → List Char
  | _, [] => []
  | inWs, c :: cs =>
      if isWsA c then
        if inWs then squeezeWsAux true cs else ' ' :: squeezeWsAux true cs
      else c :: squeezeWsAux false cs

def squeezeWs (cs : List Char) : List Char := squeezeWsAux false cs

/-- Model of `re.sub(r'^[.\-\s]+|[.\-\s]+$', '', name)`: strip the leading and the
trailing run of dots, dashes and whitespace. -/
def stripPunct (cs : List Char) : List Char :=
  let p : Char → Bool := fun c => c = '.' || c = '-' || isWsA c
  ((cs.dropWhile p).reverse.dropWhile p).reverse

def cleanName (cs : List Char) : List Char := stripPunct (squeezeWs cs)

/-- Model of `re.match(r'^[0-9\s\-\.]+$', name)`: the cleaned candidate is purely
numeric/punctuation. -/
def isJunkName (cs : List Char) : Bool :=
  cs ≠ [] && cs.all (fun c => isDigitA c || isWsA c || c = '-' || c = '.')

/-- Lines 263-271: clean the raw capture, then accept it only if it is longer
than three characters and not purely numeric/punctuation. -/
def acceptName (raw : List Char) : Option String :=
  let c := cleanName raw
  if 3 < c.length && !isJunkName c then some (String.mk c) else none

/-- The validated candidate of each of the five patterns, in source order. -/
def nameCandidates (t : String) : List (Option String) :=
  namePatterns.map (fun p => (reSearch p (t.length + 1) t.data).bind acceptName)

def firstSome {α : Type} : List (Option α) → Option α
  | [] => none
  | some a :: _ => some a
  | none :: rest => firstSome rest

/-- Lines 224-271: the first pattern whose candidate passes validation wins;
otherwise the sentinel default remains. -/
def extractCompanyName (t : String) : String :=
  (firstSome (nameCandidates t)).getD ("Unknown Company")

/-! ### `parse_single_ipo_block` (source lines 222-340) -/

structure IpoData where
  company_name : String
  offer_price_min : Option Nat
  offer_price_max : Option Nat
  lot_size : Option Nat
  subscription_times : Option ℚ
  expected_premium : Option ℚ
  premium_percentage : Option ℚ
  offer_start_date : Option PDate
  offer_end_date : Option PDate
  ipo_type : String
deriving DecidableEq, Repr

/-- Python truthiness of an optional integer field (`if x:`). -/
def truthyN : Option Nat → Bool
  | none => false
  | some n => n != 0

/-- The record as populated by lines 224-332, before the validity gate. -/
def mkRecord (t : String) : IpoData :=
  { company_name := extractCompanyName t
    offer_price_min := (blockPrice t).map Prod.fst
    offer_price_max := (blockPrice t).map Prod.snd
    lot_size := blockLot t
    subscription_times := blockSub t
    expected_premium := (blockPremium t).map Prod.fst
    premium_percentage := (blockPremium t).map Prod.snd
    offer_start_date := (blockDates t).1
    offer_end_date := (blockDates t).2
    ipo_type := "Current" }

/-- Lines 222-340: build the record from the stripped block text, then the
validity gate `if ipo_data['offer_price_min'] and ipo_data['lot_size']`
(truthiness, so a zero value also rejects). -/
def parse_single_ipo_block (block : String) : Option IpoData :=
  let d := mkRecord (pyStripS block)
  if truthyN d.offer_price_min && truthyN d.lot_size then some d else none

/-! ### `split_ipo_blocks_v2` (source lines 187-220)

`re.findall(r'Offer Date:\s*([A-Za-z]+ \d+, \d+ - [A-Za-z]+ \d+, \d+)(.*?)(?=Offer Date:|$)', text, re.DOTALL | re.IGNORECASE)`.
A match needs the case-insensitive anchor followed by the strict date range;
its lazy `(.*?)(?=...)` tail extends to the next case-insensitive anchor
occurrence, to the position just before a final newline, or to the end of the
text, whichever comes first.  `findall` scans left to right and resumes after
each match's end. -/

def anchorChars : List Char := ("Offer Date:").data

/-- Does the case-insensitive anchor occur anywhere in `s`? -/
def hasAnchorCI : List Char → Bool
  | [] => false
  | s@(_ :: rest) => (stripPreCI anchorChars s).isSome || hasAnchorCI rest

/-- The lazy `(.*?)(?=Offer Date:|$)` tail: consume until the next
case-insensitive anchor, the end, or a lone trailing newline.  Returns the
consumed part and the rest. -/
def takeData : Nat → List Char → List Char × List Char
  | 0, s => ([], s)
  | fuel + 1, s =>
      if (stripPreCI anchorChars s).isSome || s = [] || s = ['\n'] then ([], s)
      else
        match s with
        | [] => ([], [])
        | c :: rest =>
            let (t, r) := takeData fuel rest
            (c :: t, r)

/-- Lines 203-217: rebuild the matched block as
`f"Offer Date: {date_part}{data_part}"`, split into lines, strip each, keep
the non-empty ones, truncate to 20, and keep the block if at least one line
remains. -/
def mkBlock (dateCs dataCs : List Char) : Option String :=
  let block := ("Offer Date: ").data ++ dateCs ++ dataCs
  let lines := (block.splitOn '\n').map pyStrip
  let cleanLines := (lines.filter (fun l => l ≠ [])).take 20
  if 1 ≤ cleanLines.length then
    some (String.mk (List.intercalate ['\n'] cleanLines))
  else none

/-- One `findall` match attempt at the current position: anchor, `\s*`, the
strict date range, then the lazy data tail.  Returns the number of consumed
characters, the block built from the capture, and the remaining text. -/
def tryAnchor (s : List Char) : Option (Nat × Option String × List Char) :=
  match stripPreCI anchorChars s with
  | none => none
  | some s1 =>
      let w := (takeRun isWsA s1).1
      let s2 := (takeRun isWsA s1).2
      match matchDateRangeStrict s2 with
      | none => none
      | some ds =>
          let dataCs := (takeData (ds.2.length + 1) ds.2).1
          let s4 := (takeData (ds.2.length + 1) ds.2).2
          some (anchorChars.length + w.length + ds.1.length + dataCs.length,
            mkBlock ds.1 dataCs, s4)

/-- The `findall` scan: at each position try a match; on success resume after
the match, otherwise advance one character.  Emits `(position, block)`. -/
def scanBlocks : Nat → List Char → Nat → List (Nat × Option String)
  | 0, _, _ => []
  | fuel + 1, s, pos =>
      match tryAnchor s with
      | some (consumed, block, rest) =>
          (pos, block) :: scanBlocks fuel rest (pos + consumed)
      | none =>
          match s with
          | [] => []
          | _ :: rest => scanBlocks fuel rest (pos + 1)

/-- The anchor positions at which `findall` produced a match, in scan order. -/
def ipoMatchPositions (t : String) : List Nat :=
  (scanBlocks (t.length + 1) t.data 0).map Prod.fst

def split_ipo_blocks_v2 (t : String) : List String :=
  (scanBlocks (t.length + 1) t.data 0).filterMap Prod.snd

/-! ### The accepted-record loop of `parse_ipo_data` (source lines 172-179) -/

/-- Python `(mn + (mx or mn))`: the `or` falls back to the minimum when the maximum
is `None` or zero (Python truthiness). -/
def pyOrNat (a : Option Nat) (b : Nat) : Nat :=
  match a with
  | none => b
  | some n => if n = 0 then b else n

/-- Line 177-178: `int(avg_price * lot_size)` with
`avg_price = (min + (max or min)) / 2`.  The float quotient is exact (a half)
and `int()` truncates toward zero, so on these non-negative values the result
is the floored natural division. -/
def investmentPerLot (mn : Nat) (mx : Option Nat) (lot : Nat) : Nat :=
  (mn + pyOrNat mx mn) * lot / 2

/-- Lines 172-183: parse each block, keep the accepted records, attach the
derived field.  A record missing the fields used on line 177 would raise and
be skipped by the surrounding `except` (that path is unreachable because the
gate guarantees both fields). -/
def processBlocks (blocks : List String) : List (IpoData × Nat) :=
  blocks.filterMap (fun b =>
    match parse_single_ipo_block b with
    | none => none
    | some d =>
        match d.offer_price_min, d.lot_size with
        | some mn, some l => some (d, investmentPerLot mn d.offer_price_max l)
        | _, _ => none)

/-- The record-extraction core of `parse_ipo_data` (lines 134-185), from page
text to accepted records: segment, parse, derive. -/
def parse_ipo_data (pageText : String) : List (IpoData × Nat) :=
  processBlocks (split_ipo_blocks_v2 pageText)

/-- Python 3 `round()` (banker's rounding: halves go to the even integer),
used to state the specified derivation of `investment_per_lot`. -/
def pyRound (q : ℚ) : ℤ :=
  if q - ⌊q⌋ = 1 / 2 then (if 2 ∣ ⌊q⌋ then ⌊q⌋ else ⌊q⌋ + 1) else round q

/-! ## Helper lemmas -/

theorem extract_price_shape (s : String) :
    extract_price s = (none, none) ∨
      ∃ a b, extract_price s = (some a, some b) := by
  simp only [extract_price]
  split
  · split
    · rename_i p1 p2 _
      cases pyInt p1 <;> cases pyInt p2 <;> simp
    · simp
  · cases pyInt (cleanPrice s) <;> simp

/-! ## Claim C4 -/

/-- C4: price extraction maps the clean input "160-170" to (min 160, max 170)
and the clean input "54" to (min 54, max 54); whenever the captured text is
not a valid integer or dash-joined integer pair, both price fields are absent
— the two components of the result are always present together or absent
together. -/
theorem extract_price_examples_and_paired :
    extract_price ("160-170") = (some 160, some 170) ∧
    extract_price ("54") = (some 54, some 54) ∧
    ∀ s : String, ((extract_price s).1 = none ↔ (extract_price s).2 = none) := by
  refine ⟨by decide, by decide, ?_⟩
  intro s
  rcases extract_price_shape s with h | ⟨a, b, h⟩ <;> rw [h] <;> simp

/-! ## Claim C3 -/

/-- C3 counterexample: the extractor performs no reordering, so the
dash-joined pair quoted in descending source order "170-160" becomes a record
with `offer_price_min = 170` and `offer_price_max = 160`, violating
max ≥ min. -/
theorem price_pair_descending_cex :
    (parse_single_ipo_block ("Offer Price170-160Lot Size5")).map
      (fun r => (r.offer_price_min, r.offer_price_max)) =
      some (some 170, some 160) ∧
    ¬(170 ≤ 160) := by
  refine ⟨by decide, by omega⟩

/-- C3 amended: when a single price is quoted the two fields are equal, but a
dash-joined pair is taken in source order — the minimum field is parsed from
the left component and the maximum field from the right component, with no
reordering — so max ≥ min holds only when the source order is ascending. -/
theorem price_pair_source_order (s : String) (mn mx : Nat)
    (h : extract_price s = (some mn, some mx)) :
    (¬('-' ∈ cleanPrice s) → mn = mx) ∧
    ('-' ∈ cleanPrice s → ∃ p1 p2, (cleanPrice s).splitOn '-' = [p1, p2] ∧
      pyInt p1 = some mn ∧ pyInt p2 = some mx) := by
  simp only [extract_price] at h
  constructor
  · intro hd
    rw [if_neg hd] at h
    cases hv : pyInt (cleanPrice s) <;> rw [hv] at h <;> simp_all <;> omega
  · intro hd
    rw [if_pos hd] at h
    rcases hsp : (cleanPrice s).splitOn '-' with _ | ⟨p1, _ | ⟨p2, _ | _⟩⟩ <;>
      rw [hsp] at h <;> try simp_all
    cases h1 : pyInt p1 <;> cases h2 : pyInt p2 <;> rw [h1, h2] at h <;> simp_all
    exact ⟨p1, p2, ⟨rfl, rfl⟩, h1, h2⟩

/-- C3 witness: the amended theorem applied to the single-price input "54". -/
theorem price_pair_source_order_witness :
    extract_price ("54") = (some 54, some 54) ∧ (54 : Nat) = 54 := by
  refine ⟨by decide, ?_⟩
  exact (price_pair_source_order ("54") 54 54 (by decide)).1 (by decide)

/-! ## Claims C1 and C10: the validity gate -/

theorem truthyN_isSome {o : Option Nat} (h : truthyN o = true) : o.isSome := by
  cases o <;> simp_all [truthyN]

theorem truthyN_pos {o : Option Nat} {n : Nat} (h : truthyN o = true)
    (ho : o = some n) : 1 ≤ n := by
  subst ho
  simp only [truthyN, bne_iff_ne] at h
  omega

theorem parse_single_cases (b : String) :
    parse_single_ipo_block b = none ∨
      (parse_single_ipo_block b = some (mkRecord (pyStripS b)) ∧
        truthyN (mkRecord (pyStripS b)).offer_price_min = true ∧
        truthyN (mkRecord (pyStripS b)).lot_size = true) := by
  simp only [parse_single_ipo_block]
  rcases h1 : truthyN (mkRecord (pyStripS b)).offer_price_min <;>
    rcases h2 : truthyN (mkRecord (pyStripS b)).lot_size <;> simp

/-- C1: a segment is rejected whenever it lacks a parseable "Offer Price"
value or a parseable "Lot Size" value (those fields stay unset and Python
truthiness fails the gate), regardless of which other fields matched; a
record is returned only when both `offer_price_min` and `lot_size` are
present, so rejected segments are dropped rather than emitted with null
required fields. -/
theorem extract_requires_price_and_lot (b : String) :
    ((blockPrice (pyStripS b) = none ∨ blockLot (pyStripS b) = none) →
      parse_single_ipo_block b = none) ∧
    ∀ r, parse_single_ipo_block b = some r →
      r.offer_price_min.isSome ∧ r.lot_size.isSome := by
  constructor
  · intro h
    simp only [parse_single_ipo_block, mkRecord]
    rcases h with h | h <;> simp [h, truthyN]
  · intro r hr
    rcases parse_single_cases b with h | ⟨h, h1, h2⟩
    · rw [h] at hr; cases hr
    · rw [h] at hr
      cases hr
      exact ⟨truthyN_isSome h1, truthyN_isSome h2⟩

/-- C1 witness: a segment with no price pattern is rejected, and an accepted
segment has both required fields present. -/
theorem extract_requires_price_and_lot_witness :
    parse_single_ipo_block ("no price here") = none ∧
    ((⟨("Unknown Company"), some 5, some 5, some 2, none, none, none, none,
        none, ("Current")⟩ : IpoData).offer_price_min.isSome ∧
      (⟨("Unknown Company"), some 5, some 5, some 2, none, none, none, none,
        none, ("Current")⟩ : IpoData).lot_size.isSome) := by
  constructor
  · exact (extract_requires_price_and_lot ("no price here")).1
      (Or.inl (by decide))
  · exact (extract_requires_price_and_lot ("Offer Price5Lot Size2")).2
      ⟨("Unknown Company"), some 5, some 5, some 2, none, none, none, none,
        none, ("Current")⟩ (by decide)

/-- C10: every accepted record has `offer_price_max` present whenever
`offer_price_min` is (they are assigned together), and because the acceptance
gate tests numeric truthiness, every accepted record has
`offer_price_min ≥ 1` and `lot_size ≥ 1`; a segment whose matched price
minimum or lot size parses to zero is rejected even though both patterns
matched. -/
theorem accepted_record_positive_fields :
    (∀ b r, parse_single_ipo_block b = some r →
      (r.offer_price_min.isSome → r.offer_price_max.isSome) ∧
      (∀ mn, r.offer_price_min = some mn → 1 ≤ mn) ∧
      (∀ l, r.lot_size = some l → 1 ≤ l)) ∧
    parse_single_ipo_block ("Offer Price0Lot Size2") = none ∧
    parse_single_ipo_block ("Offer Price5Lot Size0") = none := by
  refine ⟨?_, by decide, by decide⟩
  intro b r hr
  rcases parse_single_cases b with h | ⟨h, h1, h2⟩
  · rw [h] at hr; cases hr
  · rw [h] at hr
    cases hr
    refine ⟨?_, fun mn hmn => truthyN_pos h1 hmn, fun l hl => truthyN_pos h2 hl⟩
    intro _
    simp only [mkRecord] at h1 ⊢
    rcases hh : blockPrice (pyStripS b) with _ | pr
    · rw [hh] at h1; simp [truthyN] at h1
    · simp

/-- C10 witness: the theorem applied to a concrete accepted block. -/
theorem accepted_record_positive_fields_witness :
    ((⟨("Unknown Company"), some 5, some 5, some 2, none, none, none, none,
        none, ("Current")⟩ : IpoData).offer_price_min.isSome →
      (⟨("Unknown Company"), some 5, some 5, some 2, none, none, none, none,
        none, ("Current")⟩ : IpoData).offer_price_max.isSome) ∧
    (1 : Nat) ≤ 5 ∧ (1 : Nat) ≤ 2 := by
  have h := accepted_record_positive_fields.1 ("Offer Price5Lot Size2")
    ⟨("Unknown Company"), some 5, some 5, some 2, none, none, none, none,
      none, ("Current")⟩ (by decide)
  exact ⟨h.1, h.2.1 5 rfl, h.2.2 2 rfl⟩

/-! ## Claim C5: premium -/

/-- C5: premium extraction sets `expected_premium` and `premium_percentage`
together or leaves both absent — in every accepted record the two fields are
present together or absent together; when a dash range with a parenthesized
percentage matches, `expected_premium` is the average of the two bounds
(fractional results allowed): "24-25 (32%)" yields 24.5 and 32.0, and
"15-16 (2.9%)" yields 15.5 and 2.9. -/
theorem premium_avg_and_paired :
    extract_premium ("24-25 (32%)") = (some (49 / 2), some 32) ∧
    extract_premium ("15-16 (2.9%)") = (some (31 / 2), some (29 / 10)) ∧
    blockPremium ("Exp. Premium24-25 (32%)") = some (49 / 2, 32) ∧
    (∀ s : String, ((extract_premium s).1 = none ↔ (extract_premium s).2 = none)) ∧
    ∀ b r, parse_single_ipo_block b = some r →
      (r.expected_premium.isSome ↔ r.premium_percentage.isSome) := by
  refine ⟨?_, ?_, ?_, ?_, ?_⟩
  · have h : extract_premium_core ("24-25 (32%)") = some (24, 25, ['3', '2'], []) := by
      decide
    have hd : digitsVal ['3', '2'] = 32 := by decide
    have h0 : digitsVal [] = 0 := rfl
    simp only [extract_premium, h, decVal, hd, h0]
    norm_num
  · have h : extract_premium_core ("15-16 (2.9%)") = some (15, 16, ['2'], ['9']) := by
      decide
    have hd : digitsVal ['2'] = 2 := by decide
    have hd2 : digitsVal ['9'] = 9 := by decide
    simp only [extract_premium, h, decVal, hd, hd2]
    norm_num
  · have h : blockPremiumCore ("Exp. Premium24-25 (32%)") = some (24, 25, ['3', '2'], []) := by
      decide
    have hd : digitsVal ['3', '2'] = 32 := by decide
    have h0 : digitsVal [] = 0 := rfl
    simp only [blockPremium, h, Option.map_some', decVal]
    rw [hd, h0]
    norm_num
  · intro s
    simp only [extract_premium]
    cases extract_premium_core s with
    | none => simp
    | some x => obtain ⟨a, b, ip, fp⟩ := x; simp
  · intro b r hr
    rcases parse_single_cases b with h | ⟨h, _, _⟩
    · rw [h] at hr; cases hr
    · rw [h] at hr
      cases hr
      simp only [mkRecord]
      cases blockPremium (pyStripS b) <;> simp

/-- C5 witness: the record-level pairing applied to a concrete accepted
block. -/
theorem premium_avg_and_paired_witness :
    ((⟨("Unknown Company"), some 7, some 7, some 3, none, none, none, none,
        none, ("Current")⟩ : IpoData).expected_premium.isSome ↔
      (⟨("Unknown Company"), some 7, some 7, some 3, none, none, none, none,
        none, ("Current")⟩ : IpoData).premium_percentage.isSome) :=
  premium_avg_and_paired.2.2.2.2 ("Offer Price7Lot Size3")
    ⟨("Unknown Company"), some 7, some 7, some 3, none, none, none, none,
      none, ("Current")⟩ (by decide)

/-! ## Claim C6: dates -/

/-- C6: date extraction parses the pair "Aug 4, 2025 - Aug 6, 2025" to start
2025-08-04 and end 2025-08-06 using the fixed "Mon D, YYYY" format; a
malformed or absent date pair leaves both `offer_start_date` and
`offer_end_date` absent — a record never has exactly one of the two dates
set. -/
theorem dates_parse_and_paired :
    extract_dates ("Aug 4, 2025 - Aug 6, 2025") =
      (some ⟨2025, 8, 4⟩, some ⟨2025, 8, 6⟩) ∧
    extract_dates ("Foo 4, 2025 - Aug 6, 2025") = (none, none) ∧
    (∀ s : String, ((extract_dates s).1 = none ↔ (extract_dates s).2 = none)) ∧
    ∀ b r, parse_single_ipo_block b = some r →
      (r.offer_start_date.isSome ↔ r.offer_end_date.isSome) := by
  have hshape : ∀ s : String, ((extract_dates s).1 = none ↔ (extract_dates s).2 = none) := by
    intro s
    simp only [extract_dates]
    cases datePairSearch (s.length + 1) s.data with
    | none => simp
    | some g =>
        obtain ⟨g1, g2⟩ := g
        rcases h1 : strptimeBDY g1 with _ | d1 <;>
          rcases h2 : strptimeBDY g2 with _ | d2 <;> simp [h1, h2]
  refine ⟨by decide, by decide, hshape, ?_⟩
  intro b r hr
  rcases parse_single_cases b with h | ⟨h, _, _⟩
  · rw [h] at hr; cases hr
  · rw [h] at hr
    cases hr
    simp only [mkRecord, blockDates]
    cases blockDateSearch ((pyStripS b).length + 1) (pyStripS b).data with
    | none => simp
    | some g =>
        have hs := hshape (String.mk g)
        rcases h1 : (extract_dates (String.mk g)).1 with _ | d1 <;>
          rcases h2 : (extract_dates (String.mk g)).2 with _ | d2 <;>
            simp_all

/-- C6 witness: the record-level pairing applied to a concrete accepted
block. -/
theorem dates_parse_and_paired_witness :
    ((⟨("Unknown Company"), some 9, some 9, some 4, none, none, none, none,
        none, ("Current")⟩ : IpoData).offer_start_date.isSome ↔
      (⟨("Unknown Company"), some 9, some 9, some 4, none, none, none, none,
        none, ("Current")⟩ : IpoData).offer_end_date.isSome) :=
  dates_parse_and_paired.2.2.2 ("Offer Price9Lot Size4")
    ⟨("Unknown Company"), some 9, some 9, some 4, none, none, none, none,
      none, ("Current")⟩ (by decide)

/-! ## Claim C7: subscription -/

/-- C7: on "No of Apps: 4624 | 13.39 times" the subscription extraction
yields 13.39: in the ordered pattern list the bare `times` pattern comes
first and its first success wins (so nothing is double-counted), and the
leftmost text it can match is the multiple that follows the pipe separator
— 13.39, not the applications count 4624. -/
theorem subscription_pipe_value :
    blockSub ("No of Apps: 4624 | 13.39 times") = some (1339 / 100) ∧
    (1339 / 100 : ℚ) ≠ 4624 ∧
    ∀ t x, subBareSearch (t.length + 1) t.data = some x →
      blockSubCore t = some x := by
  refine ⟨?_, by norm_num, ?_⟩
  · have h : blockSubCore ("No of Apps: 4624 | 13.39 times") =
        some (['1', '3'], ['3', '9']) := by decide
    have hd : digitsVal ['1', '3'] = 13 := by decide
    have hd2 : digitsVal ['3', '9'] = 39 := by decide
    simp only [blockSub, h, Option.map_some', decVal]
    rw [hd, hd2]
    norm_num
  · intro t x h
    simp only [blockSubCore, h]

/-- C7 witness: the priority conjunct applied to a concrete text matched by
the bare pattern. -/
theorem subscription_pipe_value_witness :
    blockSubCore ("2 times") = some (['2'], []) :=
  subscription_pipe_value.2.2 ("2 times") (['2'], []) (by decide)

/-! ## Claim C2: the derived investment field -/

/-- C2 counterexample: an accepted record with price range 160-171 and lot
size 1 gets `investment_per_lot = 165` from the code's `int()` truncation,
while the claimed formula `round(((160+171)/2) × 1)` gives 166. -/
theorem investment_per_lot_round_cex :
    processBlocks [("Offer Price160-171Lot Size1")] =
      [(⟨("Unknown Company"), some 160, some 171, some 1, none, none, none,
          none, none, ("Current")⟩, 165)] ∧
    pyRound (((160 : ℚ) + 171) / 2 * 1) = 166 := by
  constructor
  · decide
  · have hq : ((160 : ℚ) + 171) / 2 * 1 = 331 / 2 := by norm_num
    have hf : (⌊(331 : ℚ) / 2⌋ : ℤ) = 165 := by norm_num
    rw [hq, pyRound, hf]
    norm_num

/-- C2 amended: for every accepted record the derived field equals the
truncation (the floor, not the nearest-integer rounding) of
`((min + eff)/2) × lot`, where the effective maximum `eff` is line 177's
`(max or min)`: it falls back to the minimum when the maximum is absent or
zero (Python truthiness).  When `offer_price_max` is present and nonzero —
the usual case — this is `⌊((min + max)/2) × lot⌋`, which agrees with
`round(...)` exactly when `(min + max) × lot` is even, as in the spec's
example `160-170` with lot size 100, which gives 16500. -/
theorem investment_per_lot_truncates (blocks : List String) (d : IpoData)
    (inv : Nat) (hmem : (d, inv) ∈ processBlocks blocks)
    (mn l : Nat) (hmn : d.offer_price_min = some mn)
    (hl : d.lot_size = some l) :
    inv = (mn + pyOrNat d.offer_price_max mn) * l / 2 ∧
    inv = ⌊((mn + pyOrNat d.offer_price_max mn : ℚ) / 2) * l⌋₊ ∧
    ∀ mx, d.offer_price_max = some mx → mx ≠ 0 →
      inv = ⌊((mn + mx : ℚ) / 2) * l⌋₊ := by
  have hinv : inv = investmentPerLot mn d.offer_price_max l := by
    simp only [processBlocks, List.mem_filterMap] at hmem
    obtain ⟨b, _, hb⟩ := hmem
    split at hb
    · cases hb
    · split at hb
      · rename_i d' _ mn' l' h1 h2
        rw [Option.some_inj] at hb
        obtain ⟨hd, hinv⟩ := Prod.mk.injEq .. ▸ hb
        subst hd
        rw [h1] at hmn
        rw [h2] at hl
        cases hmn
        cases hl
        exact hinv.symm
      · cases hb
  have hfloor : ∀ e : Nat, (mn + e) * l / 2 = ⌊((mn + e : ℚ) / 2) * l⌋₊ := by
    intro e
    have hcast : ((mn + e : ℚ) / 2) * l = (((mn + e) * l : ℕ) : ℚ) / 2 := by
      push_cast
      ring
    rw [hcast, Nat.floor_div_ofNat, Nat.floor_natCast]
  refine ⟨hinv, hinv.trans (hfloor (pyOrNat d.offer_price_max mn)), ?_⟩
  intro mx hmx hmx0
  have heff : pyOrNat d.offer_price_max mn = mx := by
    rw [hmx]
    simp [pyOrNat, hmx0]
  rw [hinv, investmentPerLot, heff, hfloor mx]

/-- C2 witness: the amended theorem applied to the spec's own example, price
range 160-170 with lot size 100 (truncated value 16500, where the effective
maximum is the quoted 170), and to the accepted block "Offer Price5-0Lot
Size2", whose zero maximum makes the `or` fall back to the minimum 5,
giving 10. -/
theorem investment_per_lot_truncates_witness :
    ((16500 : Nat) = ⌊((160 + 170 : ℚ) / 2) * 100⌋₊) ∧
    ((10 : Nat) = (5 + pyOrNat (some 0) 5) * 2 / 2) := by
  have h1 := investment_per_lot_truncates [("Offer Price160-170Lot Size100")]
    ⟨("Unknown Company"), some 160, some 170, some 100, none, none, none,
      none, none, ("Current")⟩ 16500 (by decide) 160 100 rfl rfl
  have h2 := investment_per_lot_truncates [("Offer Price5-0Lot Size2")]
    ⟨("Unknown Company"), some 5, some 0, some 2, none, none, none,
      none, none, ("Current")⟩ 10 (by decide) 5 2 rfl rfl
  exact ⟨h1.2.2 170 rfl (by norm_num), h2.1⟩

/-! ## Claim C8: the segmenter -/

theorem tryAnchor_none_of_no_anchor {s : List Char}
    (h : (stripPreCI anchorChars s).isSome = false) : tryAnchor s = none := by
  unfold tryAnchor
  cases hs : stripPreCI anchorChars s with
  | none => rfl
  | some _ => rw [hs] at h; cases h

theorem scanBlocks_nil_of_no_anchor :
    ∀ (fuel : Nat) (s : List Char) (pos : Nat), hasAnchorCI s = false →
      scanBlocks fuel s pos = [] := by
  intro fuel
  induction fuel with
  | zero => intro s pos _; rfl
  | succ fuel ih =>
      intro s pos h
      cases s with
      | nil =>
          have h0 : tryAnchor [] = none := by decide
          simp [scanBlocks, h0]
      | cons c rest =>
          rw [hasAnchorCI] at h
          simp only [Bool.or_eq_false_iff] at h
          have ht : tryAnchor (c :: rest) = none := tryAnchor_none_of_no_anchor h.1
          simp [scanBlocks, ht, ih rest (pos + 1) h.2]

theorem tryAnchor_consumes {s : List Char} {c : Nat} {b : Option String}
    {r : List Char} (h : tryAnchor s = some (c, b, r)) : 1 ≤ c := by
  cases h1 : stripPreCI anchorChars s with
  | none => simp [tryAnchor, h1] at h
  | some s1 =>
      cases h2 : matchDateRangeStrict (takeRun isWsA s1).2 with
      | none => simp [tryAnchor, h1, h2] at h
      | some ds =>
          simp only [tryAnchor, h1, h2, Option.some_inj] at h
          have hc : anchorChars.length + (takeRun isWsA s1).1.length +
              ds.1.length + (takeData (ds.2.length + 1) ds.2).1.length = c :=
            congrArg Prod.fst h
          have hal : anchorChars.length = 11 := by decide
          omega

theorem scanBlocks_succ (fuel : Nat) (s : List Char) (pos : Nat) :
    scanBlocks (fuel + 1) s pos =
      match tryAnchor s with
      | some (consumed, block, rest) =>
          (pos, block) :: scanBlocks fuel rest (pos + consumed)
      | none =>
          match s with
          | [] => []
          | _ :: rest => scanBlocks fuel rest (pos + 1) := rfl

theorem scanBlocks_pos_lb :
    ∀ (fuel : Nat) (s : List Char) (pos q : Nat),
      q ∈ (scanBlocks fuel s pos).map Prod.fst → pos ≤ q := by
  intro fuel
  induction fuel with
  | zero => intro s pos q hq; cases hq
  | succ fuel ih =>
      intro s pos q hq
      rw [scanBlocks_succ] at hq
      split at hq
      · rename_i c b rest _
        simp only [List.map_cons, List.mem_cons] at hq
        rcases hq with rfl | hq
        · omega
        · have := ih rest (pos + c) q hq
          omega
      · cases s with
        | nil => cases hq
        | cons c rest =>
            have := ih rest (pos + 1) q hq
            omega

theorem scanBlocks_chain :
    ∀ (fuel : Nat) (s : List Char) (pos : Nat),
      List.Chain' (· < ·) ((scanBlocks fuel s pos).map Prod.fst) := by
  intro fuel
  induction fuel with
  | zero => intro s pos; exact List.chain'_nil
  | succ fuel ih =>
      intro s pos
      rw [scanBlocks_succ]
      split
      · rename_i c b rest hta
        rw [List.map_cons, List.chain'_cons']
        refine ⟨?_, ih rest (pos + c)⟩
        intro q hq
        have hlb : pos + c ≤ q :=
          scanBlocks_pos_lb fuel rest (pos + c) q (List.mem_of_mem_head? hq)
        have := tryAnchor_consumes hta
        omega
      · cases s with
        | nil => exact List.chain'_nil
        | cons c rest => exact ih rest (pos + 1)

/-- C8: for every raw text with zero (case-insensitive) occurrences of the
anchor phrase "Offer Date:", the segmenter returns an empty sequence — a
normal "zero offerings found" outcome, not a failure — and the matches it
does produce are at strictly increasing positions, so segments appear in the
same order as their anchors occur in the source text. -/
theorem segmenter_empty_and_ordered (t : String) :
    (hasAnchorCI t.data = false → split_ipo_blocks_v2 t = []) ∧
    List.Chain' (· < ·) (ipoMatchPositions t) := by
  constructor
  · intro h
    unfold split_ipo_blocks_v2
    rw [scanBlocks_nil_of_no_anchor (t.length + 1) t.data 0 h]
    rfl
  · exact scanBlocks_chain (t.length + 1) t.data 0

/-- C8 witness: a text with no anchor yields no segments. -/
theorem segmenter_empty_and_ordered_witness :
    split_ipo_blocks_v2 ("no offerings on this page") = [] :=
  (segmenter_empty_and_ordered ("no offerings on this page")).1 (by decide)

/-! ## Claim C9: the company-name cascade -/

theorem firstSome_of_all_none {α : Type} :
    ∀ l : List (Option α), (∀ x ∈ l, x = none) → firstSome l = none := by
  intro l
  induction l with
  | nil => intro _; rfl
  | cons x rest ih =>
      intro h
      have hx := h x (List.mem_cons_self x rest)
      subst hx
      rw [firstSome]
      exact ih (fun y hy => h y (List.mem_cons_of_mem _ hy))

theorem firstSome_of_first {α : Type} :
    ∀ (l : List (Option α)) (i : Nat) (c : α), l[i]? = some (some c) →
      (∀ j, j < i → l[j]? = some none) → firstSome l = some c := by
  intro l
  induction l with
  | nil => intro i c h _; simp at h
  | cons x rest ih =>
      intro i c h hj
      cases i with
      | zero =>
          simp only [List.getElem?_cons_zero, Option.some_inj] at h
          subst h
          rfl
      | succ i =>
          have hx := hj 0 (Nat.succ_pos i)
          simp only [List.getElem?_cons_zero, Option.some_inj] at hx
          subst hx
          rw [firstSome]
          exact ih i c (by simpa using h)
            (fun j hjlt => by simpa using hj (j + 1) (Nat.succ_lt_succ hjlt))

theorem acceptName_spec {raw : List Char} {c : String}
    (h : acceptName raw = some c) : 3 < c.length ∧ isJunkName c.data = false := by
  simp only [acceptName] at h
  split at h
  · rename_i hcond
    rw [Option.some_inj] at h
    subst h
    simp only [Bool.and_eq_true, decide_eq_true_eq, Bool.not_eq_true'] at hcond
    exact hcond
  · cases h

/-- C9: company-name extraction tries its five fallback patterns in source
order and accepts the first candidate that survives validation (after
whitespace normalization and punctuation stripping, length > 3 and not
purely numeric/punctuation); when no pattern yields a surviving candidate,
the name is the sentinel "Unknown Company". -/
theorem company_name_cascade (t : String) :
    ((∀ x ∈ nameCandidates t, x = none) →
      extractCompanyName t = ("Unknown Company")) ∧
    (∀ c : String, some c ∈ nameCandidates t →
      3 < c.length ∧ isJunkName c.data = false) ∧
    ∀ (i : Nat) (c : String), (nameCandidates t)[i]? = some (some c) →
      (∀ j, j < i → (nameCandidates t)[j]? = some none) →
      extractCompanyName t = c := by
  refine ⟨?_, ?_, ?_⟩
  · intro h
    unfold extractCompanyName
    rw [firstSome_of_all_none (nameCandidates t) h]
    rfl
  · intro c hc
    simp only [nameCandidates, List.mem_map] at hc
    obtain ⟨p, _, hp⟩ := hc
    cases hs : reSearch p (t.length + 1) t.data with
    | none => rw [hs] at hp; cases hp
    | some raw =>
        rw [hs] at hp
        exact acceptName_spec hp
  · intro i c h hj
    unfold extractCompanyName
    rw [firstSome_of_first (nameCandidates t) i c h hj]
    rfl

/-- C9 witness: a segment where every pattern fails falls back to the
sentinel, and a segment whose first pattern yields a valid candidate takes
that candidate. -/
theorem company_name_cascade_witness :
    extractCompanyName ("zz 12") = ("Unknown Company") ∧
    extractCompanyName ("Check Allotment Tata Motors") = ("Tata") := by
  constructor
  · exact (company_name_cascade ("zz 12")).1 (by decide)
  · exact (company_name_cascade ("Check Allotment Tata Motors")).2.2 0 ("Tata")
      (by decide) (fun j hj => absurd hj (Nat.not_lt_zero j))

end IpoScraper
